import Mathlib

/-!
Verification of the `tecs` entity-component-system library.

The Rust sources (src/lib.rs, src/core.rs, src/query.rs) store components in
a map from a component type's `TypeId` to a vector of optional boxed values
(`HashMap<TypeId, Vec<Option<Box<dyn Any>>>>`), indexed by entity id.  We
embed this shallowly:

* a `TypeId` is a natural number;
* a boxed `dyn Any` value is a `Dyn`: its runtime type tag plus a payload
  (payload identity is all the claims need);
* the map is an association list (the `HashMap` has unique keys; iteration
  order only matters for operations that are order-insensitive here);
* a Rust panic (`expect`, `unwrap`, out-of-bounds indexing) is `Except.error`;
  functions that cannot panic return plain values or `Option`.
-/

/-- A type-erased boxed value (`Box<dyn Any>`): runtime type tag + payload. -/
structure Dyn where
  ty : Nat
  val : Nat
deriving DecidableEq, Repr

/-- One per-type storage vector: `Vec<Option<Box<dyn Any>>>`, indexed by entity id. -/
abbrev Store := List (Option Dyn)

/-- The Ecs state (`struct Ecs` in src/lib.rs and src/core.rs). -/
structure Ecs where
  next_entity_id : Nat
  entity_free_list : List Nat
  components : List (Nat × Store)
deriving DecidableEq, Repr

/-- `Ecs::new()`. -/
def Ecs.new : Ecs := ⟨0, [], []⟩

/-- `self.components.get(&type_id)`: the storage for a type, if any. -/
def storageGet (comps : List (Nat × Store)) (t : Nat) : Option Store :=
  (comps.find? (fun p => p.1 = t)).map (·.2)

/-- Replace the storage stored under key `t` (mutation through
`components.get_mut`); keys are unique so at most one entry changes. -/
def setStorage (comps : List (Nat × Store)) (t : Nat) (st : Store) :
    List (Nat × Store) :=
  comps.map (fun p => if p.1 = t then (t, st) else p)

/-- `Vec::resize_with(new_len, || None)`: extend with `None` up to `new_len`,
or truncate when the vector is longer. -/
def resizeWith (st : Store) (newLen : Nat) : Store :=
  if st.length < newLen then st ++ List.replicate (newLen - st.length) none
  else st.take newLen

/-- `Ecs::resize_component_stores` (src/lib.rs:166, src/core.rs:232): resize
every storage to `next_entity_id + 1` slots. -/
def Ecs.resizeComponentStores (e : Ecs) : Ecs :=
  { e with
    components :=
      e.components.map (fun p => (p.1, resizeWith p.2 (e.next_entity_id + 1))) }

/-- `Vec::push` on the entity free list. -/
def pushFree (l : List Nat) (id : Nat) : List Nat := l ++ [id]

/-- `Vec::pop` on the entity free list: take the most recently pushed id. -/
def popFree (l : List Nat) : Option (Nat × List Nat) :=
  match l.getLast? with
  | none => none
  | some id => some (id, l.dropLast)

/-- `Ecs::fetch_next_entity_id` (src/lib.rs:153, src/core.rs:221): pop a
recycled id from the free list if one exists, otherwise take
`next_entity_id`, resize all storages to `next_entity_id + 1`, and
increment the counter.  The two Rust files spell the pop differently
(`is_empty`/`pop().expect(..)` vs `if let Some(id) = pop()`) but compute the
same function. -/
def Ecs.fetchNextEntityId (e : Ecs) : Ecs × Nat :=
  match popFree e.entity_free_list with
  | some (id, rest) => ({ e with entity_free_list := rest }, id)
  | none =>
      let id := e.next_entity_id
      let e' := e.resizeComponentStores
      ({ e' with next_entity_id := e.next_entity_id + 1 }, id)

/-- One step of `EntityBuilder::build`'s loop (src/lib.rs:203-213,
src/core.rs:317-327): store one component under its own type id.  When a
storage exists, `storage[id] = Some(component)` — an out-of-range index is a
panic.  When none exists, a fresh storage of length `id + 1` is created
(`vec![]` then `resize_with(id + 1)`), the slot set, and the storage
inserted into the map. -/
def storeComponent (e : Ecs) (id : Nat) (c : Dyn) : Except String Ecs :=
  match storageGet e.components c.ty with
  | some st =>
      if id < st.length then
        .ok { e with components := setStorage e.components c.ty (st.set id (some c)) }
      else .error "index out of bounds"
  | none =>
      let st := resizeWith [] (id + 1)
      .ok { e with components := e.components ++ [(c.ty, st.set id (some c))] }

/-- The whole loop of `EntityBuilder::build` over the collected components,
in push order. -/
def buildStore (e : Ecs) (id : Nat) : List Dyn → Except String Ecs
  | [] => .ok e
  | c :: rest => do
      let e' ← storeComponent e id c
      buildStore e' id rest

/-- `ecs.new_entity().with_component(c1)...with_component(ck).build()`
(src/lib.rs:201-216, src/core.rs:315-331): fetch an id, then store each
collected component.  Returns the new state and the entity id. -/
def buildEntity (e : Ecs) (cs : List Dyn) : Except String (Ecs × Nat) :=
  let p := e.fetchNextEntityId
  (buildStore p.1 p.2 cs).map (fun e2 => (e2, p.2))

/-- The loop of `Ecs::remove_entity`: `component[entity_id] = None` on every
storage — a panic (out-of-bounds index) when a storage is not longer than
the id. -/
def clearSlots (id : Nat) : List (Nat × Store) → Except String (List (Nat × Store))
  | [] => .ok []
  | p :: rest =>
      if id < p.2.length then
        (clearSlots id rest).map (fun cs => (p.1, p.2.set id none) :: cs)
      else .error "index out of bounds"

/-- `Ecs::remove_entity` (src/lib.rs:87-93, src/core.rs:87-93): for every
storage, `component[entity_id] = None` (a panic when the storage is not
longer than the id), then push the id onto the free list. -/
def removeEntity (e : Ecs) (id : Nat) : Except String Ecs :=
  (clearSlots id e.components).map (fun comps =>
    { e with components := comps, entity_free_list := pushFree e.entity_free_list id })

/-- `Ecs::component::<T>` (src/lib.rs:115-121, src/core.rs:115-121): look up
the type's storage, then the entity's slot, then the boxed value, then
`downcast_ref::<T>`; each step propagates absence with `?`, the downcast
yields `None` on a tag mismatch.  Cannot panic. -/
def Ecs.component (e : Ecs) (t : Nat) (id : Nat) : Option Nat := do
  let st ← storageGet e.components t
  let slot ← st[id]?
  let d ← slot
  if d.ty = t then some d.val else none

/-- `Ecs::component_mut::<T>` (src/lib.rs:145-151, src/core.rs:145-151): the
same chain through `get_mut`/`as_mut`/`downcast_mut`; the value read through
the returned reference is the same as `component`'s. -/
def Ecs.componentMut (e : Ecs) (t : Nat) (id : Nat) : Option Nat := do
  let st ← storageGet e.components t
  let slot ← st[id]?
  let d ← slot
  if d.ty = t then some d.val else none

/-! The index-scanning query engine of src/lib.rs (`QueryIter`). -/

/-- The `while` condition of `QueryIter::next` (src/lib.rs:237-247): does any
requested type lack a storage, or a present value at index `i`?  Rust's
`any`/`||` short-circuit; the inner `get(self.index).expect(..)` is a panic
when a storage exists but is not longer than `i`. -/
def anyMissing (e : Ecs) (i : Nat) : List Nat → Except String Bool
  | [] => .ok false
  | t :: rest =>
      match storageGet e.components t with
      | none => .ok true
      | some st =>
          match st[i]? with
          | none => .error "No component at index"
          | some none => .ok true
          | some (some _) => anyMissing e i rest

/-- The result-collection loop of `QueryIter::next` (src/lib.rs:254-263): for
each requested type, `components.get(type_id)?.get(index)?.as_ref()?` —
failure at any step ends the iteration (`Option`, not a panic). -/
def collectAt (e : Ecs) (i : Nat) : List Nat → Option (List Dyn)
  | [] => some []
  | t :: rest => do
      let st ← storageGet e.components t
      let slot ← st[i]?
      let d ← slot
      let tail ← collectAt e i rest
      pure (d :: tail)

/-- The `From<QueryResult>` conversion (src/lib.rs:318-322): each position is
`downcast_ref().unwrap()` — a panic on a tag mismatch. -/
def convertTuple : List Nat → List Dyn → Except String (List Nat)
  | [], [] => .ok []
  | t :: ts, d :: ds =>
      if d.ty = t then (convertTuple ts ds).map (fun vs => d.val :: vs)
      else .error "downcast failed"
  | _, _ => .error "arity mismatch"

/-- Draining `QueryIter` (src/lib.rs:232-267) from index `i`: each `next`
returns `None` once the index reaches `next_entity_id`, skips indices where
`anyMissing` holds (re-checking the bound after each bump), then collects and
converts the tuple at the first fully-present index and advances.  A `None`
from the collection chain ends the iteration with the results so far. -/
def queryRunAux (e : Ecs) (tids : List Nat) (i : Nat) :
    Except String (List (List Nat)) :=
  if _h : i < e.next_entity_id then
    match anyMissing e i tids with
    | .error s => .error s
    | .ok true => queryRunAux e tids (i + 1)
    | .ok false =>
        match collectAt e i tids with
        | none => .ok []
        | some ds =>
            match convertTuple tids ds with
            | .error s => .error s
            | .ok vs => (queryRunAux e tids (i + 1)).map (fun rest => vs :: rest)
  else .ok []
termination_by e.next_entity_id - i

/-- All tuples produced by `<(A, ..)>::iter(&ecs)` in storage-index order. -/
def queryRun (e : Ecs) (tids : List Nat) : Except String (List (List Nat)) :=
  queryRunAux e tids 0

/-- Specification-side tuple at one index: the `component` lookups of every
requested type, all of which must succeed. -/
def tupleAt (e : Ecs) (tids : List Nat) (i : Nat) : Option (List Nat) :=
  match tids with
  | [] => some []
  | t :: rest => do
      let v ← e.component t i
      let vs ← tupleAt e rest i
      pure (v :: vs)

/-- Specification-side query result: one tuple per entity index that has all
requested components, in ascending index order. -/
def queryExpected (e : Ecs) (tids : List Nat) : List (List Nat) :=
  (List.range e.next_entity_id).filterMap (tupleAt e tids)

/-! The multizip query engine of src/core.rs + src/query.rs. -/

/-- `ComponentIter::new` / `ComponentIterMut::new` (src/core.rs:249-269):
`ecs.components.get(&TypeId::of::<T>()).unwrap()` — a panic when the type
has no storage anywhere. -/
def componentIterNew (e : Ecs) (t : Nat) : Except String Store :=
  match storageGet e.components t with
  | none => .error "called Option unwrap on a None value"
  | some st => .ok st

/-- Draining `ComponentIter`/`ComponentIterMut` (src/core.rs:271-285): each
`next` is `find_map(|x| x.as_ref())?.downcast_ref()` — skip `None` slots,
stop at the end, and stop (yield `None`) at the first present value whose
tag mismatches. -/
def componentIterRun (t : Nat) : Store → List Nat
  | [] => []
  | none :: rest => componentIterRun t rest
  | some d :: rest => if d.ty = t then d.val :: componentIterRun t rest else []

/-- `itertools::multizip` over the per-type streams: the k-th output tuple
takes the k-th element of every stream; iteration stops when any stream
ends. -/
def zipAll (ls : List (List Nat)) : List (List Nat) :=
  match ls with
  | [] => []
  | l :: rest =>
      (List.range (((l :: rest).map List.length).foldr min l.length)).map
        (fun k => (l :: rest).map (fun s => s.getD k 0))

/-- `<(Imm<A>, .., Imm<Z>)>::fetch(&mut ecs)` drained (src/query.rs:32-42):
fetch each type's `ComponentIter` (a panic when a storage is missing), then
multizip the streams. -/
def multizipFetch (e : Ecs) (tids : List Nat) :
    Except String (List (List Nat)) := do
  let streams ← tids.mapM (fun t => (componentIterNew e t).map (componentIterRun t))
  .ok (zipAll streams)

/-! Traces of public-API operations, for reachability and allocator claims. -/

/-- One public structural operation. -/
inductive Op where
  | build (cs : List Dyn)
  | remove (id : Nat)
deriving DecidableEq, Repr

/-- Run a list of operations from a state, collecting the ids returned by the
builds; any panic aborts the trace. -/
def execTrace (e : Ecs) : List Op → Except String (Ecs × List Nat)
  | [] => .ok (e, [])
  | .build cs :: rest =>
      match buildEntity e cs with
      | .error s => .error s
      | .ok p =>
          match execTrace p.1 rest with
          | .error s => .error s
          | .ok q => .ok (q.1, p.2 :: q.2)
  | .remove id :: rest =>
      match removeEntity e id with
      | .error s => .error s
      | .ok e1 => execTrace e1 rest

/-- Caller contract on releases along a trace: every `remove` names an id
below the then-current `next_entity_id` (a previously issued id). -/
def removesBounded (e : Ecs) : List Op → Bool
  | [] => true
  | .build cs :: rest =>
      match buildEntity e cs with
      | .ok (e1, _) => removesBounded e1 rest
      | .error _ => true
  | .remove id :: rest =>
      decide (id < e.next_entity_id) &&
        match removeEntity e id with
        | .ok e1 => removesBounded e1 rest
        | .error _ => true

/-- States reachable from `Ecs::new()` through builds and contract-respecting
removes (release only of a live id: previously allocated, not yet released),
together with the list of currently live ids. -/
inductive AllocReach : Ecs → List Nat → Prop
  | init : AllocReach Ecs.new []
  | step_build (e : Ecs) (live : List Nat) (cs : List Dyn) (e' : Ecs) (id : Nat) :
      AllocReach e live → buildEntity e cs = .ok (e', id) →
      AllocReach e' (id :: live)
  | step_remove (e : Ecs) (live : List Nat) (id : Nat) (e' : Ecs) :
      AllocReach e live → id ∈ live → removeEntity e id = .ok e' →
      AllocReach e' (live.erase id)

/-! Decidable well-formedness conditions used as hypotheses. -/

/-- Every requested type's storage, when present, covers all entity indices
(`length ≥ next_entity_id`). -/
def storageLenOKb (e : Ecs) (tids : List Nat) : Bool :=
  tids.all (fun t =>
    match storageGet e.components t with
    | some st => decide (e.next_entity_id ≤ st.length)
    | none => true)

/-- Every requested type's storage holds only values carrying that type's
tag (what the API's `build` maintains). -/
def storageTyOKb (e : Ecs) (tids : List Nat) : Bool :=
  tids.all (fun t =>
    match storageGet e.components t with
    | some st => st.all (fun slot =>
        match slot with
        | some d => decide (d.ty = t)
        | none => true)
    | none => true)

/-- Every id on the free list was previously issued (`< next_entity_id`). -/
def freeBoundedb (e : Ecs) : Bool :=
  e.entity_free_list.all (fun x => decide (x < e.next_entity_id))

/-- Presence of a value with the right tag at `(t, id)` — the condition under
which `component` succeeds. -/
def hasTyped (e : Ecs) (t : Nat) (id : Nat) : Bool :=
  match storageGet e.components t with
  | none => false
  | some st =>
      match st[id]? with
      | some (some d) => decide (d.ty = t)
      | _ => false


/-! Helper lemmas about the storage map. -/

lemma getElem?_set_self_of_lt {l : Store} {i : Nat} {a : Option Dyn}
    (h : i < l.length) : (l.set i a)[i]? = some a := by
  simp [List.getElem?_set_self', List.getElem?_eq_getElem h]

lemma storageGet_cons_eq {p : Nat × Store} {rest : List (Nat × Store)} {t : Nat}
    (h : p.1 = t) : storageGet (p :: rest) t = some p.2 := by
  simp [storageGet, List.find?_cons_of_pos, h]

lemma storageGet_cons_ne {p : Nat × Store} {rest : List (Nat × Store)} {t : Nat}
    (h : ¬ p.1 = t) : storageGet (p :: rest) t = storageGet rest t := by
  have hb : (fun (q : Nat × Store) => decide (q.1 = t)) p = false := by simp [h]
  rw [storageGet, List.find?_cons_of_neg _ (by simp [hb]), storageGet]

lemma storageGet_setStorage_self {comps : List (Nat × Store)} {t : Nat}
    {st0 : Store} (st : Store) (h : storageGet comps t = some st0) :
    storageGet (setStorage comps t st) t = some st := by
  induction comps with
  | nil => simp [storageGet] at h
  | cons p rest ih =>
      by_cases hp : p.1 = t
      · simp only [setStorage, List.map_cons, if_pos hp]
        exact storageGet_cons_eq rfl
      · rw [storageGet_cons_ne hp] at h
        simp only [setStorage, List.map_cons, if_neg hp]
        rw [storageGet_cons_ne hp]
        exact ih h

lemma storageGet_append_of_none {comps l : List (Nat × Store)} {t : Nat}
    (h : storageGet comps t = none) :
    storageGet (comps ++ l) t = storageGet l t := by
  induction comps with
  | nil => simp
  | cons p rest ih =>
      by_cases hp : p.1 = t
      · rw [storageGet_cons_eq hp] at h; cases h
      · rw [storageGet_cons_ne hp] at h
        rw [List.cons_append, storageGet_cons_ne hp]
        exact ih h

lemma storeComponent_component {e : Ecs} {id : Nat} {c : Dyn} {e' : Ecs}
    (h : storeComponent e id c = .ok e') :
    e'.component c.ty id = some c.val := by
  unfold storeComponent at h
  split at h
  · rename_i st hg
    split at h
    · rename_i hlt
      cases h
      simp [Ecs.component, storageGet_setStorage_self _ hg,
        getElem?_set_self_of_lt hlt]
    · cases h
  · rename_i hg
    cases h
    have hlen : id < (resizeWith [] (id + 1)).length := by
      simp [resizeWith]
    simp only [Ecs.component, storageGet_append_of_none hg]
    rw [storageGet_cons_eq rfl]
    simp [getElem?_set_self_of_lt hlen]

lemma storeComponent_next_free {e : Ecs} {id : Nat} {c : Dyn} {e' : Ecs}
    (h : storeComponent e id c = .ok e') :
    e'.next_entity_id = e.next_entity_id ∧
      e'.entity_free_list = e.entity_free_list := by
  unfold storeComponent at h
  split at h
  · split at h
    · cases h; exact ⟨rfl, rfl⟩
    · cases h
  · cases h; exact ⟨rfl, rfl⟩

lemma buildStore_next_free {cs : List Dyn} :
    ∀ {e : Ecs} {id : Nat} {e' : Ecs}, buildStore e id cs = .ok e' →
      e'.next_entity_id = e.next_entity_id ∧
        e'.entity_free_list = e.entity_free_list := by
  induction cs with
  | nil => intro e id e' h; cases h; exact ⟨rfl, rfl⟩
  | cons c rest ih =>
      intro e id e' h
      simp only [buildStore, bind, Except.bind] at h
      cases hs : storeComponent e id c with
      | error s => rw [hs] at h; cases h
      | ok e1 =>
          rw [hs] at h
          obtain ⟨h1, h2⟩ := storeComponent_next_free hs
          obtain ⟨h3, h4⟩ := ih h
          exact ⟨h3.trans h1, h4.trans h2⟩

lemma fetch_next_cases (e : Ecs) :
    (e.fetchNextEntityId).1.next_entity_id = e.next_entity_id ∨
      (e.fetchNextEntityId).1.next_entity_id = e.next_entity_id + 1 := by
  unfold Ecs.fetchNextEntityId
  cases hp : popFree e.entity_free_list with
  | none => right; rfl
  | some p => left; rfl

/-- C3: building an entity with one component value and reading it back with
`component` immediately afterwards returns exactly the written value, for
every starting state, component type and value. -/
theorem round_trip_component (e : Ecs) (t v id : Nat) (e' : Ecs)
    (h : buildEntity e [⟨t, v⟩] = .ok (e', id)) :
    e'.component t id = some v := by
  unfold buildEntity at h
  dsimp only at h
  cases hb : buildStore (e.fetchNextEntityId).1 (e.fetchNextEntityId).2
      [⟨t, v⟩] with
  | error s => rw [hb] at h; cases h
  | ok e2 =>
      rw [hb] at h
      simp only [Except.map] at h
      cases h
      simp only [buildStore, bind, Except.bind] at hb
      cases hs : storeComponent (e.fetchNextEntityId).1
          (e.fetchNextEntityId).2 ⟨t, v⟩ with
      | error s => rw [hs] at hb; cases hb
      | ok e3 =>
          rw [hs] at hb
          simp only [buildStore] at hb
          cases hb
          exact storeComponent_component hs

/-- C3 witness: from the empty Ecs, build an entity with the value 42 of
type 1 and read it back. -/
theorem round_trip_component_witness :
    (⟨1, [], [(1, [some ⟨1, 42⟩])]⟩ : Ecs).component 1 0 = some 42 :=
  round_trip_component Ecs.new 1 42 0 ⟨1, [], [(1, [some ⟨1, 42⟩])]⟩ (by rfl)

/-- C10: when `with_component` is called twice with the same component type
before `build`, the built entity stores only the second value (the later
store overwrites the earlier slot), and `build` returns one id, advancing
the id counter by at most one. -/
theorem duplicate_component_last_wins (e : Ecs) (t v1 v2 id : Nat) (e' : Ecs)
    (h : buildEntity e [⟨t, v1⟩, ⟨t, v2⟩] = .ok (e', id)) :
    e'.component t id = some v2 ∧
      (e'.next_entity_id = e.next_entity_id ∨
        e'.next_entity_id = e.next_entity_id + 1) := by
  unfold buildEntity at h
  dsimp only at h
  cases hb : buildStore (e.fetchNextEntityId).1 (e.fetchNextEntityId).2
      [⟨t, v1⟩, ⟨t, v2⟩] with
  | error s => rw [hb] at h; cases h
  | ok e2 =>
      rw [hb] at h
      simp only [Except.map] at h
      cases h
      have hnext := (buildStore_next_free hb).1
      constructor
      · simp only [buildStore, bind, Except.bind] at hb
        cases hs1 : storeComponent (e.fetchNextEntityId).1
            (e.fetchNextEntityId).2 ⟨t, v1⟩ with
        | error s => rw [hs1] at hb; cases hb
        | ok e3 =>
            rw [hs1] at hb
            dsimp only at hb
            cases hs2 : storeComponent e3 (e.fetchNextEntityId).2 ⟨t, v2⟩ with
            | error s => rw [hs2] at hb; cases hb
            | ok e4 =>
                rw [hs2] at hb
                simp only [buildStore] at hb
                cases hb
                exact storeComponent_component hs2
      · rw [hnext]
        exact fetch_next_cases e

/-- C10 witness: two values of type 1 pushed before `build`; the entity holds
the second. -/
theorem duplicate_component_last_wins_witness :
    (⟨1, [], [(1, [some ⟨1, 2⟩])]⟩ : Ecs).component 1 0 = some 2 ∧
      ((⟨1, [], [(1, [some ⟨1, 2⟩])]⟩ : Ecs).next_entity_id =
          Ecs.new.next_entity_id ∨
        (⟨1, [], [(1, [some ⟨1, 2⟩])]⟩ : Ecs).next_entity_id =
          Ecs.new.next_entity_id + 1) :=
  duplicate_component_last_wins Ecs.new 1 1 2 0
    ⟨1, [], [(1, [some ⟨1, 2⟩])]⟩ (by rfl)

/-- C6 (amended): the point lookups `component` and `component_mut` signal an
absent type, an out-of-range id, an empty slot or a tag mismatch by `None`
and nothing else — `component` is `none` exactly when no correctly-tagged
value sits at `(type, id)` — and the mutable lookup returns the same value.
(The original claim also covered `remove_entity`, which does panic on an
out-of-range id whenever some storage is no longer than it; see the
counterexample.) -/
theorem lookup_absent_is_none (e : Ecs) (t id : Nat) :
    (e.component t id = none ↔ hasTyped e t id = false) ∧
      e.componentMut t id = e.component t id := by
  refine ⟨?_, rfl⟩
  unfold Ecs.component hasTyped
  cases hg : storageGet e.components t with
  | none => simp
  | some st =>
      simp only [hg, Option.some_bind, List.get?_eq_getElem?]
      cases hs : st[id]? with
      | none => simp [hs]
      | some slot =>
          cases slot with
          | none => simp [hs]
          | some d =>
              by_cases hd : d.ty = t <;> simp [hs, hd]

/-- C6 witness: on a one-entity state, looking up a type the entity lacks. -/
theorem lookup_absent_is_none_witness :
    ((⟨1, [], [(1, [some ⟨1, 7⟩])]⟩ : Ecs).component 2 0 = none ↔
        hasTyped ⟨1, [], [(1, [some ⟨1, 7⟩])]⟩ 2 0 = false) ∧
      (⟨1, [], [(1, [some ⟨1, 7⟩])]⟩ : Ecs).componentMut 2 0 =
        (⟨1, [], [(1, [some ⟨1, 7⟩])]⟩ : Ecs).component 2 0 :=
  lookup_absent_is_none ⟨1, [], [(1, [some ⟨1, 7⟩])]⟩ 2 0

/-- C6 counterexample: in the reachable state holding one entity with one
component, `remove_entity(7)` (an out-of-range id) is a panic — an
out-of-bounds index into the storage vector — not an empty/optional
result. -/
theorem remove_out_of_range_panics :
    buildEntity Ecs.new [⟨1, 7⟩] =
      .ok (⟨1, [], [(1, [some ⟨1, 7⟩])]⟩, 0) ∧
      removeEntity ⟨1, [], [(1, [some ⟨1, 7⟩])]⟩ 7 =
        .error "index out of bounds" := by
  exact ⟨by rfl, by rfl⟩

lemma clearSlots_isOk (id : Nat) :
    ∀ l : List (Nat × Store),
      (clearSlots id l).isOk = l.all (fun p => decide (id < p.2.length)) := by
  intro l
  induction l with
  | nil => rfl
  | cons p rest ih =>
      simp only [clearSlots, List.all_cons]
      by_cases hp : id < p.2.length
      · rw [if_pos hp]
        cases hc : clearSlots id rest with
        | error s =>
            rw [hc] at ih
            simp [hp, ← ih, Except.map, Except.isOk, Except.toBool]
        | ok cs =>
            rw [hc] at ih
            simp [hp, ← ih, Except.map, Except.isOk, Except.toBool]
      · rw [if_neg hp]
        simp [hp, Except.isOk, Except.toBool]

/-- C8 (amended): `remove_entity` contains no `id < next_entity_id`
assertion.  It fails (via an out-of-bounds storage index) exactly when some
existing storage vector is no longer than the id; otherwise — in particular
whenever no storage exists at all — it silently pushes the id, allocated or
not, onto the free list, leaving the counter unchanged. -/
theorem remove_entity_no_assert (e : Ecs) (id : Nat) :
    ((removeEntity e id).isOk =
        e.components.all (fun p => decide (id < p.2.length))) ∧
      (∀ e', removeEntity e id = .ok e' →
        e'.entity_free_list = e.entity_free_list ++ [id] ∧
          e'.next_entity_id = e.next_entity_id) := by
  constructor
  · unfold removeEntity
    have h := clearSlots_isOk id e.components
    cases hc : clearSlots id e.components with
    | error s =>
        rw [hc] at h
        simpa [Except.map, Except.isOk, Except.toBool] using h
    | ok cs =>
        rw [hc] at h
        simpa [Except.map, Except.isOk, Except.toBool] using h
  · intro e' h
    unfold removeEntity at h
    cases hc : clearSlots id e.components with
    | error s => rw [hc] at h; cases h
    | ok cs =>
        rw [hc] at h
        simp only [Except.map] at h
        cases h
        exact ⟨rfl, rfl⟩

/-- C8 witness: on the empty Ecs, releasing the never-allocated id 5
succeeds and pushes 5 onto the free list. -/
theorem remove_entity_no_assert_witness :
    (⟨0, [5], []⟩ : Ecs).entity_free_list = Ecs.new.entity_free_list ++ [5] ∧
      (⟨0, [5], []⟩ : Ecs).next_entity_id = Ecs.new.next_entity_id :=
  (remove_entity_no_assert Ecs.new 5).2 ⟨0, [5], []⟩ (by rfl)

/-- C8 counterexample: releasing the never-allocated id 5 on the empty Ecs
does not fail any assertion — it returns successfully, leaving 5 on the free
list (silent free-list corruption), contrary to the claimed
`assert(id < next_entity_id)`. -/
theorem remove_unallocated_is_silent :
    removeEntity Ecs.new 5 = .ok ⟨0, [5], []⟩ := by rfl

/-! The query-engine correctness argument for `QueryIter`. -/

lemma query_step_cases (e : Ecs) (i : Nat) :
    ∀ tids : List Nat, storageLenOKb e tids = true →
      storageTyOKb e tids = true → i < e.next_entity_id →
      (anyMissing e i tids = .ok true ∧ tupleAt e tids i = none) ∨
      (∃ ds vs, anyMissing e i tids = .ok false ∧
        collectAt e i tids = some ds ∧ convertTuple tids ds = .ok vs ∧
        tupleAt e tids i = some vs) := by
  intro tids
  induction tids with
  | nil =>
      intro _ _ _
      right
      exact ⟨[], [], rfl, rfl, rfl, rfl⟩
  | cons t rest ih =>
      intro hlen hty hi
      simp only [storageLenOKb, List.all_cons, Bool.and_eq_true] at hlen
      simp only [storageTyOKb, List.all_cons, Bool.and_eq_true] at hty
      have hlent : storageLenOKb e rest = true := hlen.2
      have htyt : storageTyOKb e rest = true := hty.2
      cases hg : storageGet e.components t with
      | none =>
          left
          constructor
          · simp [anyMissing, hg]
          · simp [tupleAt, Ecs.component, hg]
      | some st =>
          have hil : i < st.length := by
            have := hlen.1
            rw [hg] at this
            simp only [decide_eq_true_eq] at this
            exact lt_of_lt_of_le hi this
          have hget : st[i]? = some (st.get ⟨i, hil⟩) := by
            rw [List.getElem?_eq_getElem hil]
            rfl
          cases hslot : st.get ⟨i, hil⟩ with
          | none =>
              left
              rw [hslot] at hget
              constructor
              · simp [anyMissing, hg, hget]
              · simp [tupleAt, Ecs.component, hg, hget]
          | some d =>
              rw [hslot] at hget
              have hd : d.ty = t := by
                have hmem : some d ∈ st := hslot ▸ List.get_mem st i hil
                have := hty.1
                rw [hg] at this
                simp only [List.all_eq_true] at this
                have := this (some d) hmem
                simpa using this
              rcases ih hlent htyt hi with ⟨ha, htup⟩ | ⟨ds, vs, ha, hc, hcv, htup⟩
              · left
                constructor
                · simp [anyMissing, hg, hget, ha]
                · simp [tupleAt, Ecs.component, hg, hget, hd, htup]
              · right
                refine ⟨d :: ds, d.val :: vs, ?_, ?_, ?_, ?_⟩
                · simp [anyMissing, hg, hget, ha]
                · simp [collectAt, hg, hget, hc]
                · simp [convertTuple, hd, hcv, Except.map]
                · simp [tupleAt, Ecs.component, hg, hget, hd, htup]

lemma queryRunAux_eq_filterMap (e : Ecs) (tids : List Nat)
    (hlen : storageLenOKb e tids = true) (hty : storageTyOKb e tids = true) :
    ∀ k i, e.next_entity_id - i ≤ k →
      queryRunAux e tids i =
        .ok ((List.range' i (e.next_entity_id - i)).filterMap (tupleAt e tids)) := by
  intro k
  induction k with
  | zero =>
      intro i hik
      have hni : ¬ i < e.next_entity_id := by omega
      have h0 : e.next_entity_id - i = 0 := by omega
      rw [queryRunAux, dif_neg hni, h0]
      rfl
  | succ k ih =>
      intro i hik
      by_cases hi : i < e.next_entity_id
      · have hrange : e.next_entity_id - i = (e.next_entity_id - (i + 1)) + 1 := by
          omega
        rcases query_step_cases e i tids hlen hty hi with
          ⟨ha, htup⟩ | ⟨ds, vs, ha, hc, hcv, htup⟩
        · rw [queryRunAux, dif_pos hi, ha, hrange, List.range'_succ,
            List.filterMap_cons, htup]
          exact ih (i + 1) (by omega)
        · rw [queryRunAux, dif_pos hi, ha, hc]
          dsimp only
          rw [hcv, hrange, List.range'_succ, List.filterMap_cons, htup]
          dsimp only
          rw [ih (i + 1) (by omega)]
          rfl
      · have h0 : e.next_entity_id - i = 0 := by omega
        rw [queryRunAux, dif_neg hi, h0]
        rfl

lemma queryRun_eq_queryExpected (e : Ecs) (tids : List Nat)
    (hlen : storageLenOKb e tids = true) (hty : storageTyOKb e tids = true) :
    queryRun e tids = .ok (queryExpected e tids) := by
  have h := queryRunAux_eq_filterMap e tids hlen hty e.next_entity_id 0
    (by omega)
  simpa [queryRun, queryExpected, List.range_eq_range'] using h

/-- C1 (amended): for the index-scanning `QueryIter` engine of src/lib.rs,
whenever every requested type's storage covers all entity indices and is
correctly tagged, the query yields exactly one tuple per index at which all
requested components are present — so all members of a yielded tuple come
from the same storage index (the same entity), and an entity missing any
requested type contributes nothing.  The multizip engine of src/query.rs
does not have this property: its per-type iterators skip absent slots
independently, so a yielded tuple can combine components of different
entities (see the counterexample). -/
theorem query_tuples_single_entity (e : Ecs) (tids : List Nat)
    (_hN : 2 ≤ tids.length)
    (hlen : storageLenOKb e tids = true) (hty : storageTyOKb e tids = true) :
    queryRun e tids = .ok (queryExpected e tids) :=
  queryRun_eq_queryExpected e tids hlen hty

/-- C1 witness: three entities — ids 0 and 2 have both types, id 1 only
type 1 — yield exactly the two same-entity pairs. -/
theorem query_tuples_single_entity_witness :
    queryRun ⟨3, [], [(1, [some ⟨1, 100⟩, some ⟨1, 101⟩, some ⟨1, 102⟩]),
        (2, [some ⟨2, 200⟩, none, some ⟨2, 202⟩])]⟩ [1, 2] =
      .ok (queryExpected ⟨3, [], [(1, [some ⟨1, 100⟩, some ⟨1, 101⟩, some ⟨1, 102⟩]),
        (2, [some ⟨2, 200⟩, none, some ⟨2, 202⟩])]⟩ [1, 2]) :=
  query_tuples_single_entity
    ⟨3, [], [(1, [some ⟨1, 100⟩, some ⟨1, 101⟩, some ⟨1, 102⟩]),
      (2, [some ⟨2, 200⟩, none, some ⟨2, 202⟩])]⟩ [1, 2]
    (by decide) (by decide) (by decide)

/-- C1 counterexample: the reachable state built by
`new_entity().with_component(a: type 1).build()` then
`new_entity().with_component(b: type 2).build()` — entity 0 has only type 1,
entity 1 has only type 2.  The multizip engine yields the tuple `[10, 20]`
mixing entity 0's component with entity 1's, although neither entity has
both types (each lookup of the other type is `none`), where the claim
demands no tuple at all. -/
theorem multizip_mixes_entities :
    execTrace Ecs.new [.build [⟨1, 10⟩], .build [⟨2, 20⟩]] =
      .ok (⟨2, [], [(1, [some ⟨1, 10⟩, none]),
        (2, [none, some ⟨2, 20⟩])]⟩, [0, 1]) ∧
      multizipFetch ⟨2, [], [(1, [some ⟨1, 10⟩, none]),
        (2, [none, some ⟨2, 20⟩])]⟩ [1, 2] = .ok [[10, 20]] ∧
      (⟨2, [], [(1, [some ⟨1, 10⟩, none]),
        (2, [none, some ⟨2, 20⟩])]⟩ : Ecs).component 2 0 = none ∧
      (⟨2, [], [(1, [some ⟨1, 10⟩, none]),
        (2, [none, some ⟨2, 20⟩])]⟩ : Ecs).component 1 1 = none := by
  refine ⟨by rfl, by rfl, by rfl, by rfl⟩

/-- C2 (amended): whenever the two requested types' storages (when present)
cover all entity indices and are correctly tagged — true in every state
reachable without creating an entity under a recycled id with a
brand-new component type — a query for the pair `(a, b)` yields exactly the
entities holding both components, one pair per such entity, in ascending
storage-index (entity-id) order, and nothing for an entity missing either.
Without that invariant the engine can panic instead (see the
counterexample). -/
theorem query_pair_complete (e : Ecs) (a b : Nat)
    (hlen : storageLenOKb e [a, b] = true)
    (hty : storageTyOKb e [a, b] = true) :
    queryRun e [a, b] =
      .ok ((List.range e.next_entity_id).filterMap (fun i =>
        (e.component a i).bind (fun x =>
          (e.component b i).map (fun y => [x, y])))) := by
  rw [queryRun_eq_queryExpected e [a, b] hlen hty]
  unfold queryExpected
  congr 1
  apply List.filterMap_congr
  intro i _
  cases ha : e.component a i <;> cases hb : e.component b i <;>
    simp [tupleAt, ha, hb]

/-- C2 witness: entity 0 has only type 1, entity 1 has types 1 and 2; the
pair query yields exactly entity 1's pair. -/
theorem query_pair_complete_witness :
    queryRun ⟨2, [], [(1, [some ⟨1, 1⟩, some ⟨1, 2⟩]),
        (2, [none, some ⟨2, 3⟩])]⟩ [1, 2] =
      .ok ((List.range
          (⟨2, [], [(1, [some ⟨1, 1⟩, some ⟨1, 2⟩]),
            (2, [none, some ⟨2, 3⟩])]⟩ : Ecs).next_entity_id).filterMap
        (fun i =>
          ((⟨2, [], [(1, [some ⟨1, 1⟩, some ⟨1, 2⟩]),
            (2, [none, some ⟨2, 3⟩])]⟩ : Ecs).component 1 i).bind (fun x =>
            ((⟨2, [], [(1, [some ⟨1, 1⟩, some ⟨1, 2⟩]),
              (2, [none, some ⟨2, 3⟩])]⟩ : Ecs).component 2 i).map
              (fun y => [x, y])))) :=
  query_pair_complete ⟨2, [], [(1, [some ⟨1, 1⟩, some ⟨1, 2⟩]),
    (2, [none, some ⟨2, 3⟩])]⟩ 1 2 (by decide) (by decide)

/-- C2 counterexample: the reachable state produced by building two empty
entities, removing entity 0 and rebuilding it under the recycled id 0 with
two brand-new component types (storages of length 1 while
`next_entity_id = 2`).  Entity 0 has both requested components, so the
claim requires the query to yield exactly its pair; instead `QueryIter`
panics (`expect` on `get(1)`) while scanning index 1. -/
theorem query_pair_panics_on_short_storage :
    execTrace Ecs.new [.build [], .build [], .remove 0,
        .build [⟨1, 5⟩, ⟨2, 6⟩]] =
      .ok (⟨2, [], [(1, [some ⟨1, 5⟩]), (2, [some ⟨2, 6⟩])]⟩, [0, 1, 0]) ∧
      (⟨2, [], [(1, [some ⟨1, 5⟩]), (2, [some ⟨2, 6⟩])]⟩ : Ecs).component 1 0
        = some 5 ∧
      (⟨2, [], [(1, [some ⟨1, 5⟩]), (2, [some ⟨2, 6⟩])]⟩ : Ecs).component 2 0
        = some 6 ∧
      queryRun ⟨2, [], [(1, [some ⟨1, 5⟩]), (2, [some ⟨2, 6⟩])]⟩ [1, 2] =
        .error "No component at index" := by
  refine ⟨by rfl, by rfl, by rfl, ?_⟩
  rw [queryRun, queryRunAux, dif_pos (by decide :
    0 < (⟨2, [], [(1, [some ⟨1, 5⟩]), (2, [some ⟨2, 6⟩])]⟩ : Ecs).next_entity_id)]
  rw [show anyMissing ⟨2, [], [(1, [some ⟨1, 5⟩]), (2, [some ⟨2, 6⟩])]⟩ 0 [1, 2]
      = .ok false from rfl]
  dsimp only
  rw [show collectAt ⟨2, [], [(1, [some ⟨1, 5⟩]), (2, [some ⟨2, 6⟩])]⟩ 0 [1, 2]
      = some [⟨1, 5⟩, ⟨2, 6⟩] from rfl]
  dsimp only
  rw [show convertTuple [1, 2] [⟨1, 5⟩, ⟨2, 6⟩] = .ok [5, 6] from rfl]
  dsimp only
  rw [queryRunAux, dif_pos (by decide :
    1 < (⟨2, [], [(1, [some ⟨1, 5⟩]), (2, [some ⟨2, 6⟩])]⟩ : Ecs).next_entity_id)]
  rw [show anyMissing ⟨2, [], [(1, [some ⟨1, 5⟩]), (2, [some ⟨2, 6⟩])]⟩ 1 [1, 2]
      = .error "No component at index" from rfl]
  rfl

/-! Queries over a type with no storage anywhere. -/

lemma anyMissing_true_of_absent (e : Ecs) (i : Nat) :
    ∀ tids : List Nat, storageLenOKb e tids = true →
      tids.any (fun t => (storageGet e.components t).isNone) = true →
      i < e.next_entity_id →
      anyMissing e i tids = .ok true := by
  intro tids
  induction tids with
  | nil => intro _ habs _; simp at habs
  | cons t rest ih =>
      intro hlen habs hi
      simp only [storageLenOKb, List.all_cons, Bool.and_eq_true] at hlen
      cases hg : storageGet e.components t with
      | none => simp [anyMissing, hg]
      | some st =>
          have hil : i < st.length := by
            have := hlen.1
            rw [hg] at this
            simp only [decide_eq_true_eq] at this
            exact lt_of_lt_of_le hi this
          have hget : st[i]? = some (st.get ⟨i, hil⟩) := by
            rw [List.getElem?_eq_getElem hil]
            rfl
          have habs' :
              rest.any (fun t => (storageGet e.components t).isNone) = true := by
            simp only [List.any_cons, hg, Option.isNone_some,
              Bool.false_or] at habs
            exact habs
          cases hslot : st.get ⟨i, hil⟩ with
          | none =>
              rw [hslot] at hget
              simp [anyMissing, hg, hget]
          | some d =>
              rw [hslot] at hget
              simp [anyMissing, hg, hget, ih hlen.2 habs' hi]

lemma queryRunAux_empty_of_absent (e : Ecs) (tids : List Nat)
    (hlen : storageLenOKb e tids = true)
    (habs : tids.any (fun t => (storageGet e.components t).isNone) = true) :
    ∀ k i, e.next_entity_id - i ≤ k → queryRunAux e tids i = .ok [] := by
  intro k
  induction k with
  | zero =>
      intro i hik
      have hni : ¬ i < e.next_entity_id := by omega
      rw [queryRunAux, dif_neg hni]
  | succ k ih =>
      intro i hik
      by_cases hi : i < e.next_entity_id
      · rw [queryRunAux, dif_pos hi,
          anyMissing_true_of_absent e i tids hlen habs hi]
        exact ih (i + 1) (by omega)
      · rw [queryRunAux, dif_neg hi]

/-- C7 (amended): the `QueryIter` engine of src/lib.rs yields the empty
sequence when some requested type has no storage anywhere (provided the
other requested types' storages cover all indices, so the scan itself does
not panic).  The `ComponentIter`/`ComponentIterMut` construction of
src/core.rs, used by the src/query.rs `fetch` engine, instead panics on the
`unwrap` of the missing storage (see the counterexample). -/
theorem query_absent_type_is_empty (e : Ecs) (tids : List Nat)
    (hlen : storageLenOKb e tids = true)
    (habs : tids.any (fun t => (storageGet e.components t).isNone) = true) :
    queryRun e tids = .ok [] :=
  queryRunAux_empty_of_absent e tids hlen habs e.next_entity_id 0 (by omega)

/-- C7 witness: one entity with a type-1 component; querying type 2 (no
storage anywhere) yields the empty sequence. -/
theorem query_absent_type_is_empty_witness :
    queryRun ⟨1, [], [(1, [some ⟨1, 3⟩])]⟩ [2] = .ok [] :=
  query_absent_type_is_empty ⟨1, [], [(1, [some ⟨1, 3⟩])]⟩ [2]
    (by decide) (by decide)

/-- C7 counterexample: requesting a type with no storage anywhere through
`ComponentIter::new` (the src/core.rs engine backing src/query.rs `fetch`)
is a panic — `components.get(&TypeId::of::<T>()).unwrap()` on `None` — not
an empty sequence. -/
theorem component_iter_absent_type_panics :
    componentIterNew Ecs.new 1 = .error "called Option unwrap on a None value" := by
  rfl

/-- C9 (code bug): the storage-length invariant `length ≥ next_entity_id`
does not survive building an entity under a recycled id with a component
type that had no storage before.  From the empty Ecs: build two empty
entities, remove entity 0, then build an entity (recycled id 0) with a
component of the fresh type 1.  `build` sizes the new storage to
`id + 1 = 1` although `next_entity_id = 2`, so indexing entity 1 into that
storage is out of bounds — the very invariant `QueryIter::next` and
`remove_entity` rely on (their `expect`/indexing panics become reachable,
as the other counterexamples show). -/
theorem recycled_id_breaks_storage_length :
    execTrace Ecs.new [.build [], .build [], .remove 0, .build [⟨1, 5⟩]] =
      .ok (⟨2, [], [(1, [some ⟨1, 5⟩])]⟩, [0, 1, 0]) ∧
      ¬ (∀ p ∈ (⟨2, [], [(1, [some ⟨1, 5⟩])]⟩ : Ecs).components,
          (⟨2, [], [(1, [some ⟨1, 5⟩])]⟩ : Ecs).next_entity_id ≤ p.2.length) := by
  exact ⟨by rfl, by decide⟩

/-! The id allocator: facts about `fetch_next_entity_id` over reachable
states. -/

lemma popFree_eq_none {l : List Nat} (h : popFree l = none) : l = [] := by
  unfold popFree at h
  cases hg : l.getLast? with
  | none => exact List.getLast?_eq_none_iff.mp hg
  | some a => rw [hg] at h; cases h

lemma popFree_eq_some {l : List Nat} {x : Nat} {rest : List Nat}
    (h : popFree l = some (x, rest)) : l = rest ++ [x] := by
  unfold popFree at h
  cases hg : l.getLast? with
  | none => rw [hg] at h; cases h
  | some a =>
      rw [hg] at h
      simp only [Option.some.injEq, Prod.mk.injEq] at h
      obtain ⟨hx, hrest⟩ := h
      subst hx
      subst hrest
      exact (List.dropLast_append_getLast? a hg).symm

lemma popFree_concat (f : List Nat) (x : Nat) :
    popFree (f ++ [x]) = some (x, f) := by
  unfold popFree
  rw [List.getLast?_concat, List.dropLast_concat]

lemma fetch_proj_none {e : Ecs} (h : popFree e.entity_free_list = none) :
    (e.fetchNextEntityId).2 = e.next_entity_id ∧
      (e.fetchNextEntityId).1.next_entity_id = e.next_entity_id + 1 ∧
      (e.fetchNextEntityId).1.entity_free_list = e.entity_free_list := by
  unfold Ecs.fetchNextEntityId
  rw [h]
  exact ⟨rfl, rfl, rfl⟩

lemma fetch_proj_some {e : Ecs} {x : Nat} {rest : List Nat}
    (h : popFree e.entity_free_list = some (x, rest)) :
    (e.fetchNextEntityId).2 = x ∧
      (e.fetchNextEntityId).1.next_entity_id = e.next_entity_id ∧
      (e.fetchNextEntityId).1.entity_free_list = rest := by
  unfold Ecs.fetchNextEntityId
  rw [h]
  exact ⟨rfl, rfl, rfl⟩

lemma buildEntity_ok {e : Ecs} {cs : List Dyn} {e' : Ecs} {id : Nat}
    (h : buildEntity e cs = .ok (e', id)) :
    id = (e.fetchNextEntityId).2 ∧
      e'.next_entity_id = (e.fetchNextEntityId).1.next_entity_id ∧
      e'.entity_free_list = (e.fetchNextEntityId).1.entity_free_list := by
  unfold buildEntity at h
  dsimp only at h
  cases hb : buildStore (e.fetchNextEntityId).1 (e.fetchNextEntityId).2 cs with
  | error s => rw [hb] at h; cases h
  | ok e2 =>
      rw [hb] at h
      simp only [Except.map] at h
      cases h
      obtain ⟨h1, h2⟩ := buildStore_next_free hb
      exact ⟨rfl, h1, h2⟩

lemma removeEntity_ok_proj {e : Ecs} {id : Nat} {e' : Ecs}
    (h : removeEntity e id = .ok e') :
    e'.entity_free_list = e.entity_free_list ++ [id] ∧
      e'.next_entity_id = e.next_entity_id := by
  unfold removeEntity at h
  cases hc : clearSlots id e.components with
  | error s => rw [hc] at h; cases h
  | ok cs =>
      rw [hc] at h
      simp only [Except.map] at h
      cases h
      exact ⟨rfl, rfl⟩

lemma allocReach_inv {e : Ecs} {live : List Nat} (h : AllocReach e live) :
    live.Nodup ∧ (∀ x ∈ live, x < e.next_entity_id) ∧
      (∀ x ∈ e.entity_free_list, x < e.next_entity_id) ∧
      (∀ x ∈ e.entity_free_list, x ∉ live) ∧
      e.entity_free_list.Nodup := by
  induction h with
  | init => simp [Ecs.new]
  | step_build e live cs e' id hr hb ih =>
      obtain ⟨hnd, hlt, hflt, hdisj, hfnd⟩ := ih
      obtain ⟨hid, hnext, hfree⟩ := buildEntity_ok hb
      cases hp : popFree e.entity_free_list with
      | none =>
          have hfe : e.entity_free_list = [] := popFree_eq_none hp
          obtain ⟨p2, p1n, p1f⟩ := fetch_proj_none hp
          rw [p2] at hid
          rw [p1n] at hnext
          rw [p1f, hfe] at hfree
          subst hid
          refine ⟨?_, ?_, ?_, ?_, ?_⟩
          · rw [List.nodup_cons]
            exact ⟨fun hm => absurd (hlt _ hm) (lt_irrefl _), hnd⟩
          · intro x hx
            rw [hnext]
            rcases List.mem_cons.mp hx with hx | hx
            · omega
            · have := hlt x hx; omega
          · intro x hx
            rw [hfree] at hx
            cases hx
          · intro x hx
            rw [hfree] at hx
            cases hx
          · rw [hfree]
            exact List.nodup_nil
      | some pr =>
          rcases pr with ⟨x, rest⟩
          have hfe : e.entity_free_list = rest ++ [x] := popFree_eq_some hp
          obtain ⟨p2, p1n, p1f⟩ := fetch_proj_some hp
          rw [p2] at hid
          rw [p1n] at hnext
          rw [p1f] at hfree
          subst hid
          have hxfree : id ∈ e.entity_free_list := by
            rw [hfe]; simp
          have hrestfree : ∀ y ∈ rest, y ∈ e.entity_free_list := by
            intro y hy; rw [hfe]; simp [hy]
          have hxrest : id ∉ rest := by
            intro hxr
            have := hfnd
            rw [hfe, List.nodup_append] at this
            exact this.2.2 hxr (by simp)
          refine ⟨?_, ?_, ?_, ?_, ?_⟩
          · rw [List.nodup_cons]
            exact ⟨hdisj id hxfree, hnd⟩
          · intro y hy
            rw [hnext]
            rcases List.mem_cons.mp hy with hy | hy
            · exact hy ▸ hflt id hxfree
            · exact hlt y hy
          · intro y hy
            rw [hfree] at hy
            rw [hnext]
            exact hflt y (hrestfree y hy)
          · intro y hy
            rw [hfree] at hy
            intro hmem
            rcases List.mem_cons.mp hmem with hy2 | hy2
            · exact hxrest (hy2 ▸ hy)
            · exact hdisj y (hrestfree y hy) hy2
          · rw [hfree]
            have := hfnd
            rw [hfe] at this
            exact this.of_append_left
  | step_remove e live id e' hr hmem hrm ih =>
      obtain ⟨hnd, hlt, hflt, hdisj, hfnd⟩ := ih
      obtain ⟨hfree, hnext⟩ := removeEntity_ok_proj hrm
      have hidfree : id ∉ e.entity_free_list := fun hf => hdisj id hf hmem
      refine ⟨hnd.erase id, ?_, ?_, ?_, ?_⟩
      · intro x hx
        rw [hnext]
        exact hlt x (List.erase_subset _ _ hx)
      · intro x hx
        rw [hfree] at hx
        rw [hnext]
        rcases List.mem_append.mp hx with hx | hx
        · exact hflt x hx
        · rw [List.mem_singleton.mp hx]
          exact hlt id hmem
      · intro x hx
        rw [hfree] at hx
        rcases List.mem_append.mp hx with hx | hx
        · intro hm
          exact hdisj x hx (List.erase_subset _ _ hm)
        · rw [List.mem_singleton.mp hx]
          intro hm
          exact ((List.Nodup.mem_erase_iff hnd).mp hm).1 rfl
      · rw [hfree, List.nodup_append]
        refine ⟨hfnd, List.nodup_singleton id, ?_⟩
        rw [List.disjoint_singleton]
        exact hidfree

/-- C5: over every sequence of entity creations and contract-respecting
releases (release only of a live id) starting from `Ecs::new()`, the
allocator `fetch_next_entity_id`: pops and returns the most recently
released id when the free list is non-empty (leaving the counter alone),
otherwise returns `next_entity_id` and increments it; it never returns an
id of a currently live entity; while the free list is non-empty it never
issues a first-time id; and no two simultaneously live entities share an
id. -/
theorem allocator_correct (e : Ecs) (live : List Nat)
    (h : AllocReach e live) :
    live.Nodup ∧
      (e.entity_free_list = [] →
        (e.fetchNextEntityId).2 = e.next_entity_id ∧
          (e.fetchNextEntityId).1.next_entity_id = e.next_entity_id + 1) ∧
      (∀ f x, e.entity_free_list = f ++ [x] →
        (e.fetchNextEntityId).2 = x ∧
          (e.fetchNextEntityId).1.entity_free_list = f ∧
          (e.fetchNextEntityId).1.next_entity_id = e.next_entity_id) ∧
      (e.fetchNextEntityId).2 ∉ live ∧
      (e.entity_free_list ≠ [] →
        (e.fetchNextEntityId).2 < e.next_entity_id) := by
  obtain ⟨hnd, hlt, hflt, hdisj, hfnd⟩ := allocReach_inv h
  refine ⟨hnd, ?_, ?_, ?_, ?_⟩
  · intro hfe
    have hp : popFree e.entity_free_list = none := by rw [hfe]; rfl
    obtain ⟨p2, p1n, _⟩ := fetch_proj_none hp
    exact ⟨p2, p1n⟩
  · intro f x hfx
    have hp : popFree e.entity_free_list = some (x, f) := by
      rw [hfx]; exact popFree_concat f x
    obtain ⟨p2, p1n, p1f⟩ := fetch_proj_some hp
    exact ⟨p2, p1f, p1n⟩
  · cases hp : popFree e.entity_free_list with
    | none =>
        obtain ⟨p2, _, _⟩ := fetch_proj_none hp
        rw [p2]
        intro hmem
        exact absurd (hlt _ hmem) (lt_irrefl _)
    | some pr =>
        rcases pr with ⟨x, rest⟩
        have hfe := popFree_eq_some hp
        obtain ⟨p2, _, _⟩ := fetch_proj_some hp
        rw [p2]
        apply hdisj
        rw [hfe]
        simp
  · intro hne
    cases hp : popFree e.entity_free_list with
    | none => exact absurd (popFree_eq_none hp) hne
    | some pr =>
        rcases pr with ⟨x, rest⟩
        have hfe := popFree_eq_some hp
        obtain ⟨p2, _, _⟩ := fetch_proj_some hp
        rw [p2]
        apply hflt
        rw [hfe]
        simp

/-- C5 witness: from the empty Ecs build two entities (ids 0, 1) and
release id 0; the reached state has counter 2, free list `[0]` and live
list `[1]`, and the theorem's conclusions hold there. -/
theorem allocator_correct_witness :
    ([1] : List Nat).Nodup ∧
      ((⟨2, [0], []⟩ : Ecs).entity_free_list = [] →
        ((⟨2, [0], []⟩ : Ecs).fetchNextEntityId).2 =
            (⟨2, [0], []⟩ : Ecs).next_entity_id ∧
          ((⟨2, [0], []⟩ : Ecs).fetchNextEntityId).1.next_entity_id =
            (⟨2, [0], []⟩ : Ecs).next_entity_id + 1) ∧
      (∀ f x, (⟨2, [0], []⟩ : Ecs).entity_free_list = f ++ [x] →
        ((⟨2, [0], []⟩ : Ecs).fetchNextEntityId).2 = x ∧
          ((⟨2, [0], []⟩ : Ecs).fetchNextEntityId).1.entity_free_list = f ∧
          ((⟨2, [0], []⟩ : Ecs).fetchNextEntityId).1.next_entity_id =
            (⟨2, [0], []⟩ : Ecs).next_entity_id) ∧
      ((⟨2, [0], []⟩ : Ecs).fetchNextEntityId).2 ∉ ([1] : List Nat) ∧
      ((⟨2, [0], []⟩ : Ecs).entity_free_list ≠ [] →
        ((⟨2, [0], []⟩ : Ecs).fetchNextEntityId).2 <
          (⟨2, [0], []⟩ : Ecs).next_entity_id) :=
  allocator_correct ⟨2, [0], []⟩ [1]
    (AllocReach.step_remove ⟨2, [], []⟩ [1, 0] 0 ⟨2, [0], []⟩
      (AllocReach.step_build ⟨1, [], []⟩ [0] [] ⟨2, [], []⟩ 1
        (AllocReach.step_build Ecs.new [] [] ⟨1, [], []⟩ 0
          AllocReach.init (by rfl))
        (by rfl))
      (by decide) (by rfl))

/-! Removal clears an entity's slots, and a released id is reused before any
fresh id. -/

lemma clearSlots_ok_shape (id : Nat) :
    ∀ {l l' : List (Nat × Store)}, clearSlots id l = .ok l' →
      l' = l.map (fun p => (p.1, p.2.set id none)) := by
  intro l
  induction l with
  | nil => intro l' h; cases h; rfl
  | cons p rest ih =>
      intro l' h
      simp only [clearSlots] at h
      by_cases hp : id < p.2.length
      · rw [if_pos hp] at h
        cases hc : clearSlots id rest with
        | error s => rw [hc] at h; cases h
        | ok cs =>
            rw [hc] at h
            simp only [Except.map] at h
            cases h
            simp [ih hc]
      · rw [if_neg hp] at h; cases h

lemma storageGet_map_set (comps : List (Nat × Store)) (t id : Nat) :
    storageGet (comps.map (fun p => (p.1, p.2.set id none))) t =
      (storageGet comps t).map (fun st => st.set id none) := by
  unfold storageGet
  rw [List.find?_map]
  have hcomp : ((fun p : Nat × Store => decide (p.1 = t)) ∘
      (fun p : Nat × Store => (p.1, p.2.set id none))) =
      fun p : Nat × Store => decide (p.1 = t) := rfl
  rw [hcomp]
  cases comps.find? (fun p : Nat × Store => decide (p.1 = t)) with
  | none => rfl
  | some p => rfl

lemma removeEntity_clears {e : Ecs} {id : Nat} {e1 : Ecs}
    (h : removeEntity e id = .ok e1) : ∀ t, e1.component t id = none := by
  intro t
  unfold removeEntity at h
  cases hc : clearSlots id e.components with
  | error s => rw [hc] at h; cases h
  | ok cs =>
      rw [hc] at h
      simp only [Except.map] at h
      cases h
      have hcs := clearSlots_ok_shape id hc
      subst hcs
      show ((storageGet (e.components.map (fun p => (p.1, p.2.set id none))) t).bind
        fun st => st[id]?.bind fun slot =>
          slot.bind fun d => if d.ty = t then some d.val else none) = none
      rw [storageGet_map_set]
      cases hg : storageGet e.components t with
      | none => rfl
      | some st =>
          simp only [Option.map_some', Option.some_bind]
          rw [List.getElem?_set_self']
          cases st[id]? with
          | none => rfl
          | some slot => rfl

lemma reuse_before_fresh (N idr : Nat) :
    ∀ (ops : List Op) (s s' : Ecs) (outs : List Nat),
      s.next_entity_id = N → idr ∈ s.entity_free_list →
      freeBoundedb s = true → removesBounded s ops = true →
      execTrace s ops = .ok (s', outs) →
      ∀ k, ∀ hk : k < outs.length, N ≤ outs.get ⟨k, hk⟩ →
        ∃ j, ∃ hj : j < outs.length, j < k ∧ outs.get ⟨j, hj⟩ = idr := by
  intro ops
  induction ops with
  | nil =>
      intro s s' outs hN hmem hfb hrb hex k hk hge
      cases hex
      exact absurd hk (by simp)
  | cons op rest ih =>
      intro s s' outs hN hmem hfb hrb hex k hk hge
      cases op with
      | build cs =>
          simp only [execTrace] at hex
          simp only [removesBounded] at hrb
          cases hbe : buildEntity s cs with
          | error s0 => rw [hbe] at hex; cases hex
          | ok p =>
              rcases p with ⟨s1, o⟩
              rw [hbe] at hex
              rw [hbe] at hrb
              dsimp only at hex hrb
              obtain ⟨hid, hnext1, hfree1⟩ := buildEntity_ok hbe
              have hfne : s.entity_free_list ≠ [] := by
                intro hempty
                rw [hempty] at hmem
                cases hmem
              cases hp : popFree s.entity_free_list with
              | none => exact absurd (popFree_eq_none hp) hfne
              | some pr =>
                  rcases pr with ⟨x, restf⟩
                  have hfe := popFree_eq_some hp
                  obtain ⟨p2, p1n, p1f⟩ := fetch_proj_some hp
                  rw [p2] at hid
                  rw [p1n] at hnext1
                  rw [p1f] at hfree1
                  have hxlt : x < N := by
                    unfold freeBoundedb at hfb
                    rw [List.all_eq_true] at hfb
                    have := hfb x (by rw [hfe]; simp)
                    rw [hN] at this
                    simpa using this
                  have hfb1 : freeBoundedb s1 = true := by
                    unfold freeBoundedb at hfb ⊢
                    rw [hfree1, hnext1]
                    rw [hfe, List.all_append, Bool.and_eq_true] at hfb
                    exact hfb.1
                  cases het : execTrace s1 rest with
                  | error s0 => rw [het] at hex; cases hex
                  | ok q =>
                      rcases q with ⟨s2, outs2⟩
                      rw [het] at hex
                      dsimp only at hex
                      cases hex
                      cases k with
                      | zero =>
                          have h0 : (o :: outs2).get ⟨0, hk⟩ = o := rfl
                          rw [h0, hid] at hge
                          omega
                      | succ k' =>
                          have hk' : k' < outs2.length := by
                            simpa using hk
                          have hsucc : (o :: outs2).get ⟨k' + 1, hk⟩ =
                              outs2.get ⟨k', hk'⟩ := rfl
                          by_cases hox : o = idr
                          · refine ⟨0, by simp, by omega, ?_⟩
                            exact hox
                          · have hmem1 : idr ∈ s1.entity_free_list := by
                              rw [hfree1]
                              rcases List.mem_append.mp (hfe ▸ hmem) with
                                hr | hr
                              · exact hr
                              · exfalso
                                apply hox
                                rw [hid]
                                exact (List.mem_singleton.mp hr).symm
                            rw [hsucc] at hge
                            obtain ⟨j, hj, hjk, hout⟩ :=
                              ih s1 s' outs2 (hnext1.trans hN) hmem1 hfb1
                                hrb het k' hk' hge
                            refine ⟨j + 1, by simpa using Nat.succ_lt_succ hj,
                              by omega, ?_⟩
                            have : (o :: outs2).get
                                ⟨j + 1, by simpa using Nat.succ_lt_succ hj⟩ =
                                outs2.get ⟨j, hj⟩ := rfl
                            rw [this]
                            exact hout
      | remove rid =>
          simp only [execTrace] at hex
          simp only [removesBounded, Bool.and_eq_true] at hrb
          obtain ⟨hrid, hrb2⟩ := hrb
          cases hre : removeEntity s rid with
          | error s0 => rw [hre] at hex; cases hex
          | ok s1 =>
              rw [hre] at hex
              rw [hre] at hrb2
              obtain ⟨hfree1, hnext1⟩ := removeEntity_ok_proj hre
              have hfb1 : freeBoundedb s1 = true := by
                unfold freeBoundedb at hfb ⊢
                rw [hfree1, hnext1, List.all_append, Bool.and_eq_true]
                exact ⟨hfb, by simpa using hrid⟩
              exact ih s1 s' outs (hnext1.trans hN)
                (by rw [hfree1]; exact List.mem_append.mpr (Or.inl hmem))
                hfb1 hrb2 hex k hk hge

/-- C4: for a live id in a well-formed state (free-list ids below the
counter), after `remove_entity(id)`: every component type reads back `None`
for that id, and along any subsequent succeeding operation sequence whose
removes respect the caller contract (only previously-issued ids), any build
that returns a fresh never-used id (one at or above the counter) is
preceded by a build that returned `id` — the released id is reused before
any fresh id is issued. -/
theorem remove_clears_and_id_reused_first (e : Ecs) (id : Nat) (e1 : Ecs)
    (hfb : freeBoundedb e = true) (hid : id < e.next_entity_id)
    (hrm : removeEntity e id = .ok e1) :
    (∀ t, e1.component t id = none) ∧
      (∀ ops e2 outs, removesBounded e1 ops = true →
        execTrace e1 ops = .ok (e2, outs) →
        ∀ k, ∀ hk : k < outs.length,
          e.next_entity_id ≤ outs.get ⟨k, hk⟩ →
          ∃ j, ∃ hj : j < outs.length, j < k ∧ outs.get ⟨j, hj⟩ = id) := by
  obtain ⟨hfree, hnext⟩ := removeEntity_ok_proj hrm
  refine ⟨removeEntity_clears hrm, ?_⟩
  intro ops e2 outs hrb hex k hk hge
  have hfb1 : freeBoundedb e1 = true := by
    unfold freeBoundedb at hfb ⊢
    rw [hfree, hnext, List.all_append, Bool.and_eq_true]
    exact ⟨hfb, by simpa using hid⟩
  exact reuse_before_fresh e.next_entity_id id ops e1 e2 outs hnext
    (by rw [hfree]; simp) hfb1 hrb hex k hk hge

/-- C4 witness: remove entity 0 from a one-entity state, then run two
builds; the first returns the recycled id 0, the second the fresh id 1. -/
theorem remove_clears_and_id_reused_first_witness :
    (∀ t, (⟨1, [0], [(1, [none])]⟩ : Ecs).component t 0 = none) ∧
      (∀ ops e2 outs, removesBounded ⟨1, [0], [(1, [none])]⟩ ops = true →
        execTrace ⟨1, [0], [(1, [none])]⟩ ops = .ok (e2, outs) →
        ∀ k, ∀ hk : k < outs.length,
          (⟨1, [], [(1, [some ⟨1, 10⟩])]⟩ : Ecs).next_entity_id ≤
            outs.get ⟨k, hk⟩ →
          ∃ j, ∃ hj : j < outs.length, j < k ∧ outs.get ⟨j, hj⟩ = 0) :=
  remove_clears_and_id_reused_first ⟨1, [], [(1, [some ⟨1, 10⟩])]⟩ 0
    ⟨1, [0], [(1, [none])]⟩ (by decide) (by decide) (by rfl)
